import Mathlib

/-!
Verification of the mojadata geospatial tiling library (GCBM.Data).

This file gives a shallow embedding of the pure computational content of the
library's Python sources and proves (or refutes) the frozen specification
claims about them.  Rasters are modelled as integer-valued grids
(`Nat → Nat → Int`), Python numbers as `ℚ`/`ℤ`/`ℕ` with explicit truncation,
and fallible code as `Option`.
-/

namespace Mojadata

/-- The GDAL data types handled by `GDALHelper` (from
`mojadata/util/gdalhelper.py`, `type_code_lookup`). -/
inductive GDT where
  | byte
  | int16
  | uint16
  | int32
  | uint32
  | float32
deriving DecidableEq, Repr

namespace GDALHelper

/-- `byte_range = (0, pow(2, 8) - 1)` from `gdalhelper.py`, i.e. `(0, 255)`. -/
def byte_range : ℚ × ℚ := (0, 255)

/-- `int16_range = (-pow(2, 16) / 2, pow(2, 16) / 2 - 1)`, i.e.
`(-32768, 32767)`. -/
def int16_range : ℚ × ℚ := (-32768, 32767)

/-- `uint16_range = (0, pow(2, 16) - 1)`, i.e. `(0, 65535)`. -/
def uint16_range : ℚ × ℚ := (0, 65535)

/-- `int32_range = (-pow(2, 32) / 2, pow(2, 32) / 2 - 1)`, i.e.
`(-2147483648, 2147483647)`. -/
def int32_range : ℚ × ℚ := (-2147483648, 2147483647)

/-- `uint32_range = (0, pow(2, 32) - 1)`, i.e. `(0, 4294967295)`. -/
def uint32_range : ℚ × ℚ := (0, 4294967295)

/-- `float32_range = (-3.4E+38, 3.4E+38)`, i.e. `±34 * 10^37`. -/
def float32_range : ℚ × ℚ := (-340000000000000000000000000000000000000, 340000000000000000000000000000000000000)

/-- `GDALHelper.best_fit_data_type(range, allow_float)` from `gdalhelper.py`
lines 25-37, with the Python float bounds embedded as rationals and
`float(x).is_integer()` embedded as `Rat.isInt`.  Note the source compares each
candidate's maximum against `range[1] <= <type>_range[1] - 1` (top value
reserved), not against the type's full maximum. -/
def best_fit_data_type (lo hi : ℚ) (allow_float : Bool) : GDT :=
  if allow_float ∧ ¬(lo.isInt ∧ hi.isInt) then .float32
  else if byte_range.1 ≤ lo ∧ hi ≤ byte_range.2 - 1 then .byte
  else if int16_range.1 ≤ lo ∧ hi ≤ int16_range.2 - 1 then .int16
  else if uint16_range.1 ≤ lo ∧ hi ≤ uint16_range.2 - 1 then .uint16
  else if int32_range.1 ≤ lo ∧ hi ≤ int32_range.2 - 1 then .int32
  else .uint32

/-- `GDALHelper.best_nodata_value(data_type)` from `gdalhelper.py` lines 39-53:
the top of the chosen type's range, with the unreachable trailing `-1` of the
Python conditional chain kept. -/
def best_nodata_value (t : GDT) : ℚ :=
  if t = .byte then byte_range.2
  else if t = .int16 then int16_range.2
  else if t = .uint16 then uint16_range.2
  else if t = .int32 then int32_range.2
  else if t = .uint32 then uint32_range.2
  else if t = .float32 then float32_range.2
  else -1

/-- Representable range of each data type, for stating the C2 spec reading. -/
def typeRange (t : GDT) : ℚ × ℚ :=
  match t with
  | .byte => byte_range
  | .int16 => int16_range
  | .uint16 => uint16_range
  | .int32 => int32_range
  | .uint32 => uint32_range
  | .float32 => float32_range

/-- The claim's wording for C2: the type's representable range contains both
`min` and `max`. -/
def rangeContains (t : GDT) (lo hi : ℚ) : Bool :=
  decide ((typeRange t).1 ≤ lo ∧ hi ≤ (typeRange t).2)

/-- First candidate type accepted by `fits`, defaulting to UInt32 (claim-side
helper for C2). -/
def firstFit (fits : GDT → Bool) : List GDT → GDT
  | [] => .uint32
  | t :: rest => if fits t then t else firstFit fits rest

/-- The C2 claim exactly as stated: Float32 for non-integral ranges when
`allow_float`, otherwise the first of Byte, Int16, UInt16, Int32, UInt32 whose
representable range contains both bounds. -/
def best_fit_claimed (lo hi : ℚ) (allow_float : Bool) : GDT :=
  if allow_float ∧ ¬(lo.isInt ∧ hi.isInt) then .float32
  else firstFit (fun t => rangeContains t lo hi) [.byte, .int16, .uint16, .int32, .uint32]

/-- The amended reading of C2: a candidate fits only if `max` stays strictly
below the type's maximum (`hi ≤ typeMax - 1`, the top value being reserved for
nodata), and UInt32 is the unchecked fallback. -/
def rangeContainsReserved (t : GDT) (lo hi : ℚ) : Bool :=
  decide ((typeRange t).1 ≤ lo ∧ hi ≤ (typeRange t).2 - 1)

/-- The amended C2 claim as a definition. -/
def best_fit_amended (lo hi : ℚ) (allow_float : Bool) : GDT :=
  if allow_float ∧ ¬(lo.isInt ∧ hi.isInt) then .float32
  else firstFit (fun t => rangeContainsReserved t lo hi) [.byte, .int16, .uint16, .int32]

/-- Python `list(range(0, stop, step))`, as used for `y_chunk_starts` and
`x_chunk_starts` in `GDALHelper.chunk` (`gdalhelper.py` lines 110 and 114):
the multiples of `step` strictly below `stop`. -/
def pyRangeBy (stop step : ℕ) : List ℕ :=
  (List.range ((stop + step - 1) / step)).map (· * step)

/-- `y_chunk_ends = [y - 1 for y in (y_chunk_starts[1:] + [height])]`
(`gdalhelper.py` line 111, and line 115 for x). -/
def chunkEnds (stop step : ℕ) : List ℕ :=
  ((pyRangeBy stop step).drop 1 ++ [stop]).map (· - 1)

/-- `list(zip(starts, ends))` for one raster dimension (`gdalhelper.py`
lines 112 and 116). -/
def dimChunks (stop step : ℕ) : List (ℕ × ℕ) :=
  (pyRangeBy stop step).zip (chunkEnds stop step)

/-- `GDALHelper.chunk(path, chunk_size)` (`gdalhelper.py` lines 97-123) as a
pure function of the raster `width`/`height` read from the file and the
`chunk_size`: the nested loops over `y_chunks` and `x_chunks` yielding
`(x_px_start, y_px_start, x_size, y_size)` with sizes `end - start + 1`. -/
def chunk (width height chunk_size : ℕ) : List (ℕ × ℕ × ℕ × ℕ) :=
  (dimChunks height chunk_size).flatMap fun yc =>
    (dimChunks width chunk_size).map fun xc =>
      (xc.1, yc.1, xc.2 - xc.1 + 1, yc.2 - yc.1 + 1)

/-- Whether pixel `(x, y)` lies inside a chunk rectangle
`(x_start, y_start, x_size, y_size)`. -/
def rectContains (r : ℕ × ℕ × ℕ × ℕ) (x y : ℕ) : Bool :=
  decide (r.1 ≤ x ∧ x < r.1 + r.2.2.1 ∧ r.2.1 ≤ y ∧ y < r.2.1 + r.2.2.2)

/-- Number of chunks along one dimension: `ceil(stop / step)` (proof-side
abbreviation for the length of `pyRangeBy stop step`). -/
def numChunks (stop step : ℕ) : ℕ := (stop + step - 1) / step

/-- The rectangle produced for chunk indices `(ix, iy)` (proof-side closed
form of the elements of `chunk`). -/
def rectOf (w h cs ix iy : ℕ) : ℕ × ℕ × ℕ × ℕ :=
  (ix * cs, iy * cs,
    min ((ix + 1) * cs) w - 1 - ix * cs + 1,
    min ((iy + 1) * cs) h - 1 - iy * cs + 1)

/-- A raster band modelled as an integer pixel value at each coordinate. -/
abbrev Grid : Type := ℕ → ℕ → ℤ

/-- One chunked write of `GDALHelper.calc` (`gdalhelper.py` line 167,
`band.WriteArray(calc_fn(data), *chunk[:2])`): inside the chunk rectangle the
band now holds the elementwise `calc_fn` of the inputs, elsewhere its previous
contents. -/
def writeChunk (fn : ℕ → ℕ → ℤ) (g : Grid) (r : ℕ × ℕ × ℕ × ℕ) : Grid :=
  fun x y => if rectContains r x y then fn x y else g x y

/-- `GDALHelper.calc(paths, output_path, calc_fn, ...)` (`gdalhelper.py` lines
147-167) on `w × h` rasters with chunk size `cs`: `blank_copy` first fills the
output with the nodata value (lines 64-95), then every chunk of
`read_chunked` is overwritten with the elementwise `calc_fn` of the input
bands. -/
def calcGrid (w h cs : ℕ) (nodata : ℤ) (fn : ℕ → ℕ → ℤ) : Grid :=
  (chunk w h cs).foldl (writeChunk fn) (fun _ _ => nodata)

end GDALHelper

namespace Config

/-- The module-level resource limits of `mojadata/config.py`. -/
structure TilerConfig where
  gdalThreads : ℕ
  processPoolSize : ℕ
  tilerMemoryLimit : ℕ
  processMemoryLimit : ℕ
  gdalMemoryLimit : ℕ
deriving DecidableEq, Repr

/-- Round-half-even of the rational `N / D` to an integer: the rounding step
of IEEE-754 binary64 division once the exact quotient has been scaled into
significand range. -/
def roundQuot (N D : ℕ) : ℕ :=
  let n0 := N / D
  let r := N % D
  if 2 * r < D then n0
  else if D < 2 * r then n0 + 1
  else if n0 % 2 = 0 then n0 else n0 + 1

/-- Scale the numerator up by doubling until `N ∈ [D * 2^52, D * 2^53)`,
returning the scaled numerator and the number of doublings performed.  The
fuel 54 used below suffices whenever the quotient is at least 1/2. -/
def shiftUp : ℕ → ℕ → ℕ → ℕ × ℕ
  | 0, N, _ => (N, 0)
  | fuel + 1, N, D =>
    if N < D * 2 ^ 52 then
      let out := shiftUp fuel (2 * N) D
      (out.1, out.2 + 1)
    else (N, 0)

/-- Scale the denominator up by doubling until `N < D * 2^53`, returning the
scaled denominator and the number of doublings performed.  The fuel 1100
used below suffices whenever the quotient is below `2^1024`. -/
def shiftDown : ℕ → ℕ → ℕ → ℕ × ℕ
  | 0, _, D => (D, 0)
  | fuel + 1, N, D =>
    if D * 2 ^ 53 ≤ N then
      let out := shiftDown fuel N (2 * D)
      (out.1, out.2 + 1)
    else (D, 0)

/-- Python `int(m / p)` for nonnegative ints `m`, `p`: CPython's true
division (`long_true_divide`) returns the IEEE-754 binary64 double nearest
to the exact quotient (53-bit significand, ties to even), raising
ZeroDivisionError for `p = 0` and OverflowError when the rounded quotient
reaches `2^1024`; `int()` then truncates toward zero.  Exceptions are
modelled as `none`.  A quotient below 1/2 rounds to a double that is at most
1/2 (monotonicity, and 1/2 is representable), so it truncates to 0 whether
or not it underflows to a subnormal — the `2 * m < p` branch returns 0
directly, which also bounds the exponent search: with `1/2 ≤ m/p < 2^1024`
the scaled significand `N / D ∈ [2^52, 2^53)` is reached within the fuel,
and the rounded significand `n` times the denominator scaling `2^b` is the
double's value, truncated by the final division by the numerator scaling
`2^a`. -/
def pyIntDiv (m p : ℕ) : Option ℕ :=
  if p = 0 then none
  else if m = 0 then some 0
  else if 2 * m < p then some 0
  else if p * 2 ^ 1024 ≤ m then none
  else
    let up := shiftUp 54 m p
    let down := shiftDown 1100 up.1 p
    let n := roundQuot up.1 down.1
    if 2 ^ 1024 ≤ n * 2 ^ down.2 then none
    else some (n * 2 ^ down.2 / 2 ^ up.2)

/-- `config.refresh(pool_size, total_mem_bytes)` (`config.py` lines 30-72)
with both arguments supplied: `GDAL_THREADS = min(pool_size, 4)`,
`PROCESS_POOL_SIZE = pool_size`, `TILER_MEMORY_LIMIT = int(total_mem_bytes)`,
`PROCESS_MEMORY_LIMIT = int(TILER_MEMORY_LIMIT / PROCESS_POOL_SIZE)`,
`GDAL_MEMORY_LIMIT = int(PROCESS_MEMORY_LIMIT / GDAL_THREADS)` — the two
divisions being Python float true division followed by `int()`, embedded by
`pyIntDiv`.  `none` models the call raising, in which case no consistent set
of limits is installed. -/
def refresh (pool_size total_mem_bytes : ℕ) : Option TilerConfig := do
  let pml ← pyIntDiv total_mem_bytes pool_size
  let gml ← pyIntDiv pml (min pool_size 4)
  some
    { gdalThreads := min pool_size 4
      processPoolSize := pool_size
      tilerMemoryLimit := total_mem_bytes
      processMemoryLimit := pml
      gdalMemoryLimit := gml }

end Config

namespace RasterClipper

open GDALHelper

/-- `clip_raster(bounding_box_layer, target_layer, output_path)`
(`rasterclipper.py` lines 12-24): `GDALHelper.calc` over
`[target_layer.path, bounding_box_layer.path]` with calculation
`np.where(d[1] != bbox.nodata_value, d[0], target.nodata_value)`; the blank
copy is made from `paths[0]`, the target layer, so its nodata value is the
fill. -/
def clip_raster (w h cs : ℕ) (target bbox : Grid) (targetNodata bboxNodata : ℤ) : Grid :=
  calcGrid w h cs targetNodata fun x y =>
    if bbox x y ≠ bboxNodata then target x y else targetNodata

end RasterClipper

namespace RasterLayer

open GDALHelper

/-- A Python attribute value as held in mojadata attribute tables: an integer,
a string, or `None`. -/
inductive PyVal where
  | vInt (n : ℤ)
  | vStr (s : String)
  | vNone
deriving DecidableEq, Repr

/-- Modelled from the spec: `ValidationHelper.no_empty_values` lives in
`mojadata.util.validationhelper`, which is not under `src/`; following the
`allow_nulls` documentation of `RasterLayer` ("allow null values in the
attribute table"), a row of attribute values passes when none of its values is
null (`None` or an empty string). -/
def no_empty_values (vs : List PyVal) : Bool :=
  vs.all fun v => !(v == PyVal.vNone || v == PyVal.vStr "")

/-- The attribute table stored by `RasterLayer.__init__` (`rasterlayer.py`
lines 56-59): kept as given when `allow_nulls`, otherwise restricted to the
entries whose values pass `no_empty_values`. -/
def rasterLayerAttributeTable (allow_nulls : Bool) (table : List (ℕ × List PyVal)) :
    List (ℕ × List PyVal) :=
  if allow_nulls then table else table.filter fun p => no_empty_values p.2

/-- The flatten step of `RasterLayer._rasterize` (`rasterlayer.py` lines
126-129): `GDALHelper.calc(self._path, flattened_path,
lambda d: d != original_nodata, data_type=gdal.GDT_Byte, nodata_value=0)` —
the numpy boolean result is written as Byte, so non-nodata pixels become 1 and
nodata pixels 0. -/
def flattened_mask (w h cs : ℕ) (nodata : ℤ) (g : Grid) : Grid :=
  calcGrid w h cs 0 fun x y => if g x y ≠ nodata then 1 else 0

/-- GDAL mode ("majority vote") resampling as invoked by
`gdal.Warp(..., resampleAlg="mode", srcNodata=...)` in
`RasterLayer._rasterize`: each output pixel aggregates the contributing source
pixels (`contrib`), excluding those equal to the source nodata value when one
is given and including every pixel when `srcNodata="None"`; the majority
choice itself (including GDAL's tie-breaking) is the uninterpreted function
`mode`. -/
def modeResample (mode : List ℤ → ℤ) (contrib : ℕ → ℕ → List (ℕ × ℕ))
    (srcNodata : Option ℤ) (g : Grid) : Grid :=
  fun x y =>
    mode (((contrib x y).map fun p => g p.1 p.2).filter fun v =>
      match srcNodata with
      | none => true
      | some nd => decide (v ≠ nd))

/-- The nodata-aware resampling pipeline of `RasterLayer._rasterize`
(`rasterlayer.py` lines 124-165) for a source layer of size `w × h` with a
nodata value: flatten the layer to a 0/1 mask, mode-resample the mask with
`srcNodata="None"` (nodata included), mode-resample the original with
`srcNodata=original_nodata` (nodata excluded), then combine over the
`w2 × h2` warped grid with
`GDALHelper.calc(..., lambda d: np.where(d[1] == 0, original_nodata, d[0]),
nodata_value=original_nodata)`. -/
def rasterize_masked (mode : List ℤ → ℤ) (contrib : ℕ → ℕ → List (ℕ × ℕ))
    (nodata : ℤ) (g : Grid) (w h w2 h2 cs : ℕ) : Grid :=
  let mask := modeResample mode contrib none (flattened_mask w h cs nodata g)
  let warped := modeResample mode contrib (some nodata) g
  calcGrid w2 h2 cs nodata fun x y => if mask x y = 0 then nodata else warped x y

end RasterLayer

namespace DisturbanceLayer

open GDALHelper
open RasterLayer

/-- The chunked calculation of `DisturbanceLayer._flatten`
(`disturbancelayer.py` line 225): `GDALHelper.calc(layer.path, output_path,
lambda d: np.where(d != nodata, d, nodata))`, with the blank copy keeping the
layer's own band nodata value. -/
def flatten_calc (w h cs : ℕ) (nodata : ℤ) (g : Grid) : Grid :=
  calcGrid w h cs nodata fun x y => if g x y ≠ nodata then g x y else nodata

/-- The attribute list of the `RasterLayer` returned by
`DisturbanceLayer._flatten` (`disturbancelayer.py` line 227). -/
def flatten_result_attributes : List String := ["disturbed"]

/-- The attribute table of the `RasterLayer` returned by
`DisturbanceLayer._flatten` (`disturbancelayer.py` line 227): the constructor
receives `{1: [1]}` with the default `allow_nulls=False`. -/
def flatten_result_attribute_table : List (ℕ × List PyVal) :=
  rasterLayerAttributeTable false [(1, [PyVal.vInt 1])]

end DisturbanceLayer

namespace GdalTiler2D

/-- Abstract model of one input layer as processed by `GdalTiler2D.tile`: its
name, its (opaque) metadata, and the observable outcomes of the `_tile_layer`
steps (`gdaltiler2d.py` lines 112-150): whether some step raises an exception,
whether the input layer is empty, and the result of `bbox.normalize` (`none`
when a falsy layer is returned, otherwise whether the normalized layer is
empty). -/
structure LayerModel (M : Type) where
  name : String
  metadata : M
  raises : Bool
  isEmpty : Bool
  normalized : Option Bool

/-- `_tile_layer(layer_idx)` (`gdaltiler2d.py` lines 112-150): the reported
success flag — False when an exception is raised, when the input layer is
empty, when `bbox.normalize` returns a falsy layer, or when the normalized
layer is empty; True otherwise. -/
def tileLayerSuccess {M : Type} (l : LayerModel M) : Bool :=
  if l.raises then false
  else if l.isEmpty then false
  else
    match l.normalized with
    | none => false
    | some e => !e

/-- The loop of `GdalTiler2D._remove_duplicates` (`gdaltiler2d.py` lines
93-104), carrying the `layer_names` accumulator. -/
def removeDuplicatesAux {M : Type} : List (LayerModel M) → List String → List (LayerModel M)
  | [], _ => []
  | l :: rest, names =>
    if l.name ∈ names then removeDuplicatesAux rest names
    else l :: removeDuplicatesAux rest (names ++ [l.name])

/-- `GdalTiler2D._remove_duplicates(layers)`. -/
def removeDuplicates {M : Type} (layers : List (LayerModel M)) : List (LayerModel M) :=
  removeDuplicatesAux layers []

/-- The `_skipped_layers` list accumulated by `_handle_tile_layer_result`
(`gdaltiler2d.py` lines 85-91): the names of the (deduplicated) layers whose
`_tile_layer` run reported failure. -/
def skippedLayers {M : Type} (layers : List (LayerModel M)) : List String :=
  ((removeDuplicates layers).filter fun l => !tileLayerSuccess l).map LayerModel.name

/-- The `"layers"` entry of the study-area manifest written by
`GdalTiler2D.tile` (`gdaltiler2d.py` lines 73-77):
`[layer.metadata for layer in layers if layer.name not in self._skipped_layers]`
over the deduplicated list. -/
def tileManifest {M : Type} (layers : List (LayerModel M)) : List M :=
  ((removeDuplicates layers).filter fun l =>
    decide (l.name ∉ skippedLayers layers)).map LayerModel.metadata

/-- The C4 claim's skip condition: the layer is empty, normalizes to nothing
or to an empty layer, or raises an exception during processing. -/
def skippedSpec {M : Type} (l : LayerModel M) : Bool :=
  l.isEmpty || (match l.normalized with | none => true | some e => e) || l.raises

/-- A JSON attribute value written by `_write_metadata` (`gdaltiler2d.py`
lines 181-191): a pixel value with a single attribute maps to the bare value,
one with several attributes to an attribute-name-to-value dictionary. -/
inductive MetaVal (V : Type) where
  | bare (v : V)
  | dict (pairs : List (String × V))
deriving DecidableEq

/-- The `"attributes"` JSON mapping of the non-compact branch of
`_write_metadata` (`gdaltiler2d.py` lines 181-188): `attr_values[0]` when
`len(attr_values) == 1`, else `dict(zip(layer.attributes, attr_values))`. -/
def buildAttributesJson {V : Type} (attrNames : List String)
    (table : List (ℕ × List V)) : List (ℕ × MetaVal V) :=
  table.map fun row =>
    match row.2 with
    | [v] => (row.1, MetaVal.bare v)
    | vs => (row.1, MetaVal.dict (attrNames.zip vs))

/-- `max((int(px) for px in layer.attribute_table))` (`gdaltiler2d.py` line
182), for `ℕ` pixel keys. -/
def maxPixel {V : Type} (table : List (ℕ × List V)) : ℕ :=
  table.foldl (fun m row => max m row.1) 0

/-- Python `repr([s0, s1, ...])` on a list of strings (`gdaltiler2d.py` line
189). -/
def pyReprStrList (xs : List String) : String :=
  "[" ++ String.intercalate ", " (xs.map fun s => "\x27" ++ s ++ "\x27") ++ "]"

/-- The native category entry for one pixel value (`gdaltiler2d.py` lines 186
and 189): `str(attr_values[0])` for a single attribute,
`repr([str(v) for v in attr_values])` for several, with Python `str` on
attribute values abstracted as `toStr`. -/
def renderNative {V : Type} (toStr : V → String) (vs : List V) : String :=
  match vs with
  | [v] => toStr v
  | _ => pyReprStrList (vs.map toStr)

/-- The native category list built by `_write_metadata` (`gdaltiler2d.py`
lines 182-189) and written into the output band by
`_write_native_attribute_table` via `band.SetCategoryNames` (lines 152-155):
`["null" for _ in range(max(...) + 1)]` with the entry at each `int(px)` set
to that pixel value's rendering. -/
def buildNativeAttributes {V : Type} (toStr : V → String)
    (table : List (ℕ × List V)) : List String :=
  table.foldl (fun acc row => acc.set row.1 (renderNative toStr row.2))
    (List.replicate (maxPixel table + 1) "null")

/-- The attribute portion of the metadata produced by `_write_metadata`
(`gdaltiler2d.py` lines 176-192). -/
inductive AttributesOut (V : Type) where
  | noTable
  | compact (attribute_names : List String) (attributes : List (ℕ × List V))
  | full (attributes : List (ℕ × MetaVal V)) (nativeCategories : List String)

/-- `_write_metadata(layer, config, path)` restricted to its attribute
output (`gdaltiler2d.py` lines 176-192): nothing when the layer has no
attribute table; `"attribute_names"` plus the raw table when
`compact_attribute_table`; otherwise the JSON `"attributes"` mapping plus the
native category list written to the band. -/
def writeMetadataAttributes {V : Type} (toStr : V → String) (compactTable : Bool)
    (attrNames : List String) (table : List (ℕ × List V)) : AttributesOut V :=
  if table.isEmpty then .noTable
  else if compactTable then .compact attrNames table
  else .full (buildAttributesJson attrNames table) (buildNativeAttributes toStr table)

end GdalTiler2D

namespace DisturbanceLayer

/-- `Attribute` (`mojadata/layer/attribute.py`, imported by
`disturbancelayer.py`), reduced to what the disturbance layer uses of it: the
database column name looked up in a row's attribute values. -/
structure Attr where
  db_name : String
deriving DecidableEq, Repr

/-- Python `dict(zip(names, values)).get(key)`
(`disturbancelayer.py` line 155): in a dict built from pairs, a later
duplicate key overwrites an earlier one, so the last matching pair wins. -/
def pyDictGet {V : Type} (pairs : List (String × V)) (k : String) : Option V :=
  (pairs.reverse.find? fun p => p.1 == k).map Prod.snd

/-- A transition rule definition (`TransitionRule`, from
`mojadata/layer/gcbm/transitionrule.py`, not under `src/`), reduced to the
fields read by `disturbancelayer.py`: regen delay and age after as an
`Attribute` or a fixed value, classifiers as a list of attribute names or a
fixed value. -/
structure TransitionModel (V : Type) where
  regen_delay : Attr ⊕ V
  age_after : Attr ⊕ V
  classifiers : List String ⊕ V

/-- One cell of a disturbance attribute-table entry built by
`DisturbanceLayer._build_attribute_table` (`disturbancelayer.py` lines
168-195): the year coerced to int, the raw disturbance type value, the float
proportion, a recorded transition rule id, the conditions, or a raw metadata
attribute lookup. -/
inductive DistVal (V C : Type) where
  | intVal (n : ℤ)
  | rawVal (v : V)
  | floatVal (q : ℚ)
  | transitionVal (id : ℕ)
  | condVal (c : C)
  | metaVal (v : Option V)
deriving DecidableEq

/-- Configuration of a `DisturbanceLayer` (`disturbancelayer.py` lines
48-70): `year`, `disturbance_type` and `proportion` as an `Attribute` or an
explicit value (explicit years and proportions embedded as the rationals
Python `float()` turns them into), optional transition definitions,
conditions (`none` models a falsy/absent conditions list), and the computed
`_metadata_attributes`.  `toFloat` embeds Python `float()` on attribute
values; `recordTransition` abstracts `_record_transition` together with
`TransitionRuleManager.get_or_add` (`transitionrule.py` is not under `src/`),
returning the rule id recorded for the mortality (`false`) or survivor
(`true`) transition of a row. -/
structure DistCfg (V C : Type) where
  year : Attr ⊕ ℚ
  disturbance_type : Attr ⊕ V
  proportion : Option (Attr ⊕ ℚ)
  transition : Option (TransitionModel V)
  survivor_transition : Option (TransitionModel V)
  conditions : Option C
  metadata_attributes : List String
  toFloat : V → ℚ
  recordTransition : Bool → TransitionModel V → List (String × V) → ℕ

/-- Python `int(x)` on a rational: truncation toward zero. -/
def pyInt (q : ℚ) : ℤ := if q < 0 then ⌈q⌉ else ⌊q⌋

/-- `[attr.db_name for attr in (self._year, self._disturbance_type) if
isinstance(attr, Attribute)]` (`disturbancelayer.py` lines 157-160). -/
def requiredAttrs {V C : Type} (cfg : DistCfg V C) : List String :=
  (match cfg.year with | .inl a => [a.db_name] | .inr _ => []) ++
    (match cfg.disturbance_type with | .inl a => [a.db_name] | .inr _ => [])

/-- Whether a row (already zipped with the layer's attribute names) is
missing one of the required year/disturbance-type attributes
(`disturbancelayer.py` lines 157-166). -/
def requiredMissing {V C : Type} (cfg : DistCfg V C) (avs : List (String × V)) : Bool :=
  !((requiredAttrs cfg).all fun k => (pyDictGet avs k).isSome)

/-- The year value `int(float(attr_values.get(...)))` or
`int(float(self._year))` (`disturbancelayer.py` lines 169-170); `none` models
the `float(None)` exception on a missing attribute. -/
def yearOf {V C : Type} (cfg : DistCfg V C) (avs : List (String × V)) : Option ℤ :=
  match cfg.year with
  | .inl a => (pyDictGet avs a.db_name).map fun v => pyInt (cfg.toFloat v)
  | .inr q => some (pyInt q)

/-- The disturbance type value (`disturbancelayer.py` lines 171-172). -/
def distTypeOf {V C : Type} (cfg : DistCfg V C) (avs : List (String × V)) : Option V :=
  match cfg.disturbance_type with
  | .inl a => pyDictGet avs a.db_name
  | .inr v => some v

/-- The proportion cell (`disturbancelayer.py` lines 175-179): appended only
when a proportion is configured; `none` models the `float(None)` exception
when a configured proportion attribute is missing from the row. -/
def propPart {V C : Type} (cfg : DistCfg V C) (avs : List (String × V)) :
    Option (List (DistVal V C)) :=
  match cfg.proportion with
  | none => some []
  | some (.inl a) => (pyDictGet avs a.db_name).map fun v => [.floatVal (cfg.toFloat v)]
  | some (.inr q) => some [.floatVal q]

/-- The transition-rule cells (`disturbancelayer.py` lines 181-187): one
recorded id for the mortality transition and one for the survivor transition,
each appended only when that transition is configured. -/
def transPart {V C : Type} (cfg : DistCfg V C) (avs : List (String × V)) :
    List (DistVal V C) :=
  (match cfg.transition with
    | some t => [.transitionVal (cfg.recordTransition false t avs)]
    | none => []) ++
  (match cfg.survivor_transition with
    | some t => [.transitionVal (cfg.recordTransition true t avs)]
    | none => [])

/-- The conditions cell (`disturbancelayer.py` lines 189-190), appended only
when a (truthy) conditions list is configured. -/
def condPart {V C : Type} (cfg : DistCfg V C) : List (DistVal V C) :=
  match cfg.conditions with
  | some c => [.condVal c]
  | none => []

/-- The metadata cells (`disturbancelayer.py` lines 192-193):
`attr_values.get(attr)` for each extra metadata attribute. -/
def metaPart {V C : Type} (cfg : DistCfg V C) (avs : List (String × V)) :
    List (DistVal V C) :=
  cfg.metadata_attributes.map fun a => DistVal.metaVal (pyDictGet avs a)

/-- The `values` list built for one row that passed the required-attribute
check (`disturbancelayer.py` lines 168-195); `none` models an exception
raised while computing a value. -/
def buildRowValues {V C : Type} (cfg : DistCfg V C) (avs : List (String × V)) :
    Option (List (DistVal V C)) := do
  let y ← yearOf cfg avs
  let d ← distTypeOf cfg avs
  let ps ← propPart cfg avs
  some (.intVal y :: .rawVal d ::
    (ps ++ transPart cfg avs ++ condPart cfg ++ metaPart cfg avs))

/-- Outcome of the `_build_attribute_table` loop (`disturbancelayer.py` lines
152-197): `raised` when an exception escapes, `emptyReturn` for the early
`return {}` on a missing required attribute (discarding any rows already
processed), `ok` with the accumulated table otherwise. -/
inductive BuildOutcome (V C : Type) where
  | raised
  | emptyReturn
  | ok (table : List (ℕ × List (DistVal V C)))
deriving DecidableEq

/-- The row loop of `_build_attribute_table` over the source layer's
attribute table, each row zipped with the layer's attribute names
(`dict(zip(layer.attributes, attr_values))`, `disturbancelayer.py` line
155). -/
def buildAttrTableAux {V C : Type} (cfg : DistCfg V C) (names : List String) :
    List (ℕ × List V) → BuildOutcome V C
  | [] => .ok []
  | (px, row) :: rest =>
    if requiredMissing cfg (names.zip row) then .emptyReturn
    else
      match buildRowValues cfg (names.zip row) with
      | none => .raised
      | some vals =>
        match buildAttrTableAux cfg names rest with
        | .ok t => .ok ((px, vals) :: t)
        | e => e

/-- `DisturbanceLayer._build_attribute_table(layer)` as a partial function:
`none` models a raised exception, `some table` the returned dict (the early
`return {}` being `some []`). -/
def buildAttrTable {V C : Type} (cfg : DistCfg V C) (names : List String)
    (table : List (ℕ × List V)) : Option (List (ℕ × List (DistVal V C))) :=
  match buildAttrTableAux cfg names table with
  | .raised => none
  | .emptyReturn => some []
  | .ok t => some t

/-- `DisturbanceLayer._rasterize` (`disturbancelayer.py` lines 103-150) on
the interpreted path (`self._layer.attributes` nonempty, so the attribute
table comes from `_build_attribute_table` on the source layer): `none` models
an exception, `some none` the `return None` cases (falsy raster or empty
attribute table), `some (some t)` the returned `RasterLayer` with disturbance
attribute table `t`. -/
def rasterizeInterpreted {V C : Type} (cfg : DistCfg V C) (names : List String)
    (table : List (ℕ × List V)) (raster : Option Unit) :
    Option (Option (List (ℕ × List (DistVal V C)))) :=
  match raster with
  | none => some none
  | some _ =>
    match buildAttrTable cfg names table with
    | none => none
    | some t => if t.isEmpty then some none else some (some t)

/-- Concrete configuration for the C6 counterexample: year from attribute
`"y"`, explicit disturbance type, proportion from attribute `"p"`. -/
def cexCfg : DistCfg String Unit :=
  { year := .inl ⟨"y"⟩
    disturbance_type := .inr "fire"
    proportion := some (.inl ⟨"p"⟩)
    transition := none
    survivor_transition := none
    conditions := none
    metadata_attributes := []
    toFloat := fun _ => 0
    recordTransition := fun _ _ _ => 0 }

/-- Attribute names of the C6 counterexample's source layer. -/
def cexNames : List String := ["y"]

/-- Attribute table of the C6 counterexample's source layer: the first row
has the year but no proportion attribute (so `float(None)` raises), the
second row is missing the required year attribute. -/
def cexTable : List (ℕ × List String) := [(1, ["2000"]), (2, [])]

/-- Attribute table for the C6 witness: its only row is missing the required
year attribute. -/
def cexTableMissingOnly : List (ℕ × List String) := [(2, [])]

end DisturbanceLayer

end Mojadata

namespace Mojadata

open GDALHelper
open RasterLayer
open RasterClipper
open DisturbanceLayer
open GdalTiler2D

/-- C2 (counterexample): for the range `(0, 255)` the code returns Int16 while
the claim's first-fit-by-representable-range reading returns Byte, so the claim
as stated is false. -/
theorem C2_counterexample :
    best_fit_data_type 0 255 false = GDT.int16 ∧
      best_fit_claimed 0 255 false = GDT.byte := by
  constructor
  · unfold best_fit_data_type
    rw [if_neg (by simp), if_neg (by norm_num [byte_range]),
      if_pos (by norm_num [int16_range])]
  · decide

/-- C2 (amended): `best_fit_data_type` returns Float32 when `allow_float` is
true and either bound is non-integral, and otherwise the first of Byte, Int16,
UInt16, Int32 whose representable range contains `min` and contains `max` with
the type's top value excluded (`max ≤ typeMax - 1`, reserved for nodata), with
UInt32 as the unchecked fallback. -/
theorem C2_best_fit_amended (lo hi : ℚ) (af : Bool) :
    best_fit_data_type lo hi af = best_fit_amended lo hi af := by
  simp only [best_fit_data_type, best_fit_amended, firstFit, rangeContainsReserved, typeRange,
    decide_eq_true_eq]

/-- C9: for every integer-valued range with `max ≤ 2^32 - 2`, the nodata value
assigned by `best_nodata_value` to the type chosen by `best_fit_data_type`
(with `allow_float` false) is strictly greater than `max`. -/
theorem C9_nodata_above_max (lo hi : ℤ) (h : (hi : ℚ) ≤ 2 ^ 32 - 2) :
    (hi : ℚ) < best_nodata_value (best_fit_data_type (lo : ℚ) (hi : ℚ) false) := by
  simp only [best_fit_data_type, Bool.false_eq_true, false_and, if_false]
  split_ifs with h1 h2 h3 h4 <;>
    simp only [best_nodata_value, if_pos, if_neg, reduceCtorEq, if_true, if_false,
      byte_range, int16_range, uint16_range, int32_range, uint32_range] <;>
    first
      | (exact lt_of_le_of_lt h1.2 (by norm_num [byte_range]))
      | (exact lt_of_le_of_lt h2.2 (by norm_num [int16_range]))
      | (exact lt_of_le_of_lt h3.2 (by norm_num [uint16_range]))
      | (exact lt_of_le_of_lt h4.2 (by norm_num [int32_range]))
      | (exact lt_of_le_of_lt h (by norm_num [uint32_range]))

lemma numChunks_pos (stop step : ℕ) (hs : 1 ≤ step) (h1 : 1 ≤ stop) :
    1 ≤ numChunks stop step := by
  unfold numChunks
  rw [Nat.one_le_div_iff (by omega : 0 < step)]
  omega

lemma le_numChunks_mul (stop step : ℕ) (hs : 1 ≤ step) :
    stop ≤ numChunks stop step * step := by
  have h := Nat.div_add_mod (stop + step - 1) step
  have hm : (stop + step - 1) % step < step := Nat.mod_lt _ (by omega)
  unfold numChunks
  rw [Nat.mul_comm]
  set A := step * ((stop + step - 1) / step) with hA
  set r := (stop + step - 1) % step with hr
  omega

lemma pred_numChunks_mul_lt (stop step : ℕ) (hs : 1 ≤ step) (h1 : 1 ≤ stop) :
    (numChunks stop step - 1) * step < stop := by
  have h := Nat.div_add_mod (stop + step - 1) step
  have hm : (stop + step - 1) % step < step := Nat.mod_lt _ (by omega)
  unfold numChunks
  rw [Nat.sub_one_mul, Nat.mul_comm]
  set A := step * ((stop + step - 1) / step) with hA
  set r := (stop + step - 1) % step with hr
  omega

lemma index_mul_lt (len cs i : ℕ) (hcs : 1 ≤ cs) (hlen : 1 ≤ len)
    (hi : i < numChunks len cs) : i * cs < len := by
  have h1 : i ≤ numChunks len cs - 1 := by omega
  have h2 : i * cs ≤ (numChunks len cs - 1) * cs := Nat.mul_le_mul_right cs h1
  have h3 := pred_numChunks_mul_lt len cs hcs hlen
  omega

lemma dimChunks_eq (stop step : ℕ) (hs : 1 ≤ step) (h1 : 1 ≤ stop) :
    dimChunks stop step =
      (List.range (numChunks stop step)).map
        (fun i => (i * step, min ((i + 1) * step) stop - 1)) := by
  have hn := numChunks_pos stop step hs h1
  have hc := pred_numChunks_mul_lt stop step hs h1
  have hl := le_numChunks_mul stop step hs
  show ((List.range (numChunks stop step)).map (· * step)).zip
      ((((List.range (numChunks stop step)).map (· * step)).drop 1 ++ [stop]).map (· - 1)) =
    (List.range (numChunks stop step)).map
      (fun i => (i * step, min ((i + 1) * step) stop - 1))
  set n := numChunks stop step with hndef
  apply List.ext_getElem
  · simp only [List.length_zip, List.length_map, List.length_append, List.length_drop,
      List.length_range, List.length_singleton]
    omega
  · intro i hA hB
    have hi : i < n := by
      simpa only [List.length_map, List.length_range] using hB
    rw [List.getElem_zip, List.getElem_map, List.getElem_range, List.getElem_map,
      List.getElem_map, List.getElem_range]
    simp only [Prod.mk.injEq, true_and]
    by_cases hcase : i < n - 1
    · rw [List.getElem_append_left
        (by simpa only [List.length_drop, List.length_map, List.length_range] using hcase)]
      rw [List.getElem_drop, List.getElem_map, List.getElem_range]
      have ha : i + 1 ≤ n - 1 := by omega
      have hb : (i + 1) * step ≤ (n - 1) * step := Nat.mul_le_mul_right step ha
      have he : (1 + i) * step = (i + 1) * step := by ring
      omega
    · rw [List.getElem_append_right
        (by simp only [List.length_drop, List.length_map, List.length_range]; omega)]
      rw [List.getElem_singleton]
      have he : (i + 1) * step = n * step := by
        rw [show i + 1 = n from by omega]
      omega

lemma chunk_eq (w h cs : ℕ) (hcs : 1 ≤ cs) (hw : 1 ≤ w) (hh : 1 ≤ h) :
    chunk w h cs =
      (List.range (numChunks h cs)).flatMap fun iy =>
        (List.range (numChunks w cs)).map fun ix => rectOf w h cs ix iy := by
  unfold chunk
  rw [dimChunks_eq h cs hcs hh, dimChunks_eq w cs hcs hw, List.flatMap_map]
  simp only [List.map_map]
  rfl

lemma countP_flatMap_sum {α β : Type} (p : β → Bool) (f : α → List β) (l : List α) :
    (l.flatMap f).countP p = (l.map fun a => (f a).countP p).sum := by
  induction l with
  | nil => simp
  | cons a t ih => simp [List.flatMap_cons, List.countP_append, ih]

lemma sum_map_boole {α : Type} (p : α → Bool) (l : List α) :
    (l.map fun a => if p a then 1 else 0).sum = l.countP p := by
  induction l with
  | nil => simp
  | cons a t ih => by_cases hp : p a <;> simp [hp, ih, List.countP_cons, Nat.add_comm]

lemma countP_interval (len cs z : ℕ) (hcs : 1 ≤ cs) (hz : z < len) :
    ((List.range (numChunks len cs)).countP fun i =>
        decide (i * cs ≤ z ∧ z < min ((i + 1) * cs) len)) = 1 := by
  have hzn : z / cs < numChunks len cs := by
    rw [Nat.div_lt_iff_lt_mul (by omega : 0 < cs)]
    exact lt_of_lt_of_le hz (le_numChunks_mul len cs hcs)
  have hcong : ((List.range (numChunks len cs)).countP fun i =>
      decide (i * cs ≤ z ∧ z < min ((i + 1) * cs) len)) =
      ((List.range (numChunks len cs)).countP fun i => i == z / cs) := by
    apply List.countP_congr
    intro i hi
    rw [List.mem_range] at hi
    simp only [decide_eq_true_eq, beq_iff_eq]
    constructor
    · rintro ⟨hle, hlt⟩
      have hlt2 : z < (i + 1) * cs := lt_of_lt_of_le hlt (Nat.min_le_left _ _)
      exact (Nat.div_eq_of_lt_le hle hlt2).symm
    · rintro rfl
      refine ⟨Nat.div_mul_le_self z cs, ?_⟩
      have h1 := Nat.div_add_mod z cs
      have h2 : z % cs < cs := Nat.mod_lt _ (by omega)
      have h3 : (z / cs + 1) * cs = cs * (z / cs) + cs := by ring
      omega
  rw [hcong]
  exact List.count_eq_one_of_mem (List.nodup_range _) (List.mem_range.mpr hzn)

lemma rectContains_rectOf (w h cs ix iy x y : ℕ) (hcs : 1 ≤ cs) (hw : 1 ≤ w)
    (hh : 1 ≤ h) (hix : ix < numChunks w cs) (hiy : iy < numChunks h cs) :
    rectContains (rectOf w h cs ix iy) x y =
      (decide (ix * cs ≤ x ∧ x < min ((ix + 1) * cs) w) &&
        decide (iy * cs ≤ y ∧ y < min ((iy + 1) * cs) h)) := by
  have h1 := index_mul_lt w cs ix hcs hw hix
  have h2 := index_mul_lt h cs iy hcs hh hiy
  have e1 : (ix + 1) * cs = ix * cs + cs := by ring
  have e2 : (iy + 1) * cs = iy * cs + cs := by ring
  rw [Bool.eq_iff_iff]
  unfold rectContains rectOf
  rw [Bool.and_eq_true]
  simp only [decide_eq_true_eq]
  omega

lemma pairwise_flatMap {α β : Type} {R : β → β → Prop} {f : α → List β} {l : List α}
    (h1 : ∀ a ∈ l, (f a).Pairwise R)
    (h2 : List.Pairwise (fun a b => ∀ x ∈ f a, ∀ y ∈ f b, R x y) l) :
    (l.flatMap f).Pairwise R := by
  induction l with
  | nil => simp
  | cons a t ih =>
    rw [List.flatMap_cons, List.pairwise_append]
    refine ⟨h1 a (List.mem_cons_self a t),
      ih (fun b hb => h1 b (List.mem_cons_of_mem a hb)) h2.of_cons, ?_⟩
    intro x hx yv hy
    rw [List.mem_flatMap] at hy
    obtain ⟨b, hb, hyb⟩ := hy
    exact (List.pairwise_cons.mp h2).1 b hb x hx yv hyb

lemma rectOf_contains_div (w h cs ix iy x y : ℕ) (hcs : 1 ≤ cs) (hw : 1 ≤ w)
    (hh : 1 ≤ h) (hix : ix < numChunks w cs) (hiy : iy < numChunks h cs)
    (hc : rectContains (rectOf w h cs ix iy) x y = true) :
    ix = x / cs ∧ iy = y / cs := by
  have h1 := index_mul_lt w cs ix hcs hw hix
  have h2 := index_mul_lt h cs iy hcs hh hiy
  have e1 : (ix + 1) * cs = ix * cs + cs := by ring
  have e2 : (iy + 1) * cs = iy * cs + cs := by ring
  unfold rectContains rectOf at hc
  simp only [decide_eq_true_eq] at hc
  obtain ⟨a1, a2, b1, b2⟩ := hc
  exact ⟨(Nat.div_eq_of_lt_le a1 (by omega)).symm,
    (Nat.div_eq_of_lt_le b1 (by omega)).symm⟩

/-- C3: for every raster with `w, h ≥ 1` and every `chunk_size ≥ 1`, the
rectangles yielded by `GDALHelper.chunk` have both sizes between 1 and
`chunk_size`, cover every pixel of the `w × h` grid exactly once, and are
pairwise disjoint. -/
theorem C3_chunk_partition (w h cs : ℕ) (hw : 1 ≤ w) (hh : 1 ≤ h) (hcs : 1 ≤ cs) :
    (∀ r ∈ chunk w h cs,
        1 ≤ r.2.2.1 ∧ r.2.2.1 ≤ cs ∧ 1 ≤ r.2.2.2 ∧ r.2.2.2 ≤ cs) ∧
    (∀ x, x < w → ∀ y, y < h →
        (chunk w h cs).countP (fun r => rectContains r x y) = 1) ∧
    List.Pairwise
      (fun r₁ r₂ => ∀ x y, ¬(rectContains r₁ x y ∧ rectContains r₂ x y))
      (chunk w h cs) := by
  rw [chunk_eq w h cs hcs hw hh]
  refine ⟨?_, ?_, ?_⟩
  · intro r hr
    simp only [List.mem_flatMap, List.mem_map, List.mem_range] at hr
    obtain ⟨iy, hiy, ix, hix, rfl⟩ := hr
    have h1 := index_mul_lt w cs ix hcs hw hix
    have h2 := index_mul_lt h cs iy hcs hh hiy
    have e1 : (ix + 1) * cs = ix * cs + cs := by ring
    have e2 : (iy + 1) * cs = iy * cs + cs := by ring
    unfold rectOf
    dsimp only
    refine ⟨by omega, by omega, by omega, by omega⟩
  · intro x hx y hy
    rw [countP_flatMap_sum]
    have hmapeq : ((List.range (numChunks h cs)).map fun iy =>
          (((List.range (numChunks w cs)).map fun ix => rectOf w h cs ix iy).countP
            fun r => rectContains r x y)) =
        (List.range (numChunks h cs)).map fun iy =>
          if decide (iy * cs ≤ y ∧ y < min ((iy + 1) * cs) h) then 1 else 0 := by
      apply List.map_congr_left
      intro iy hiy
      rw [List.mem_range] at hiy
      rw [List.countP_map]
      have hcongr : ((List.range (numChunks w cs)).countP
            ((fun r => rectContains r x y) ∘ fun ix => rectOf w h cs ix iy)) =
          ((List.range (numChunks w cs)).countP fun ix =>
            decide (ix * cs ≤ x ∧ x < min ((ix + 1) * cs) w) &&
              decide (iy * cs ≤ y ∧ y < min ((iy + 1) * cs) h)) := by
        apply List.countP_congr
        intro ix hix
        rw [List.mem_range] at hix
        simp only [Function.comp_apply]
        rw [rectContains_rectOf w h cs ix iy x y hcs hw hh hix hiy]
      rw [hcongr]
      by_cases hYc : (iy * cs ≤ y ∧ y < min ((iy + 1) * cs) h)
      · rw [decide_eq_true hYc]
        simp only [Bool.and_true, if_true]
        exact countP_interval w cs x hcs hx
      · rw [decide_eq_false hYc]
        simp only [Bool.and_false, if_false]
        simp [List.countP_false]
    rw [hmapeq, sum_map_boole]
    exact countP_interval h cs y hcs hy
  · apply pairwise_flatMap
    · intro iy hiy
      rw [List.mem_range] at hiy
      rw [List.pairwise_map]
      refine List.Pairwise.imp_of_mem ?_ (List.pairwise_lt_range _)
      intro ix ix' hmx hmx' hlt x y hcontra
      rw [List.mem_range] at hmx hmx'
      obtain ⟨hc1, hc2⟩ := hcontra
      have d1 := rectOf_contains_div w h cs ix iy x y hcs hw hh hmx hiy hc1
      have d2 := rectOf_contains_div w h cs ix' iy x y hcs hw hh hmx' hiy hc2
      omega
    · refine List.Pairwise.imp_of_mem ?_ (List.pairwise_lt_range _)
      intro iy iy' hmy hmy' hlt r hr r' hr' x y hcontra
      rw [List.mem_range] at hmy hmy'
      simp only [List.mem_map, List.mem_range] at hr hr'
      obtain ⟨ix, hix, rfl⟩ := hr
      obtain ⟨ix', hix', rfl⟩ := hr'
      obtain ⟨hc1, hc2⟩ := hcontra
      have d1 := rectOf_contains_div w h cs ix iy x y hcs hw hh hix hmy hc1
      have d2 := rectOf_contains_div w h cs ix' iy' x y hcs hw hh hix' hmy' hc2
      omega

/-- C3 witness at the concrete raster size `5 × 3` with chunk size 2. -/
theorem C3_witness :
    1 ≤ 5 ∧ 1 ≤ 3 ∧ 1 ≤ 2 ∧
      ((∀ r ∈ chunk 5 3 2,
          1 ≤ r.2.2.1 ∧ r.2.2.1 ≤ 2 ∧ 1 ≤ r.2.2.2 ∧ r.2.2.2 ≤ 2) ∧
      (∀ x, x < 5 → ∀ y, y < 3 →
          (chunk 5 3 2).countP (fun r => rectContains r x y) = 1) ∧
      List.Pairwise
        (fun r₁ r₂ => ∀ x y, ¬(rectContains r₁ x y ∧ rectContains r₂ x y))
        (chunk 5 3 2)) :=
  ⟨by decide, by decide, by decide,
    C3_chunk_partition 5 3 2 (by decide) (by decide) (by decide)⟩

/-- C9 witness at the concrete range `(0, 10)`. -/
theorem C9_witness :
    ((10 : ℤ) : ℚ) ≤ 2 ^ 32 - 2 ∧
      ((10 : ℤ) : ℚ) < best_nodata_value (best_fit_data_type ((0 : ℤ) : ℚ) ((10 : ℤ) : ℚ) false) :=
  ⟨by norm_num, C9_nodata_above_max 0 10 (by norm_num)⟩

lemma shiftDown_eq_of_lt (fuel N D : ℕ) (h : N < D * 2 ^ 53) :
    Config.shiftDown fuel N D = (D, 0) := by
  cases fuel with
  | zero => rfl
  | succ fuel =>
    unfold Config.shiftDown
    rw [if_neg (by omega)]

lemma shiftUp_spec (fuel N D : ℕ) (hD : 1 ≤ D)
    (hstart : D * 2 ^ 52 ≤ N * 2 ^ fuel) (hlt : N < D * 2 ^ 53) :
    ∃ a, Config.shiftUp fuel N D = (N * 2 ^ a, a) ∧
      D * 2 ^ 52 ≤ N * 2 ^ a ∧ N * 2 ^ a < D * 2 ^ 53 := by
  induction fuel generalizing N with
  | zero =>
    refine ⟨0, by simp [Config.shiftUp], ?_, ?_⟩
    · simpa using hstart
    · simpa using hlt
  | succ fuel ih =>
    by_cases hc : N < D * 2 ^ 52
    · have hstart' : D * 2 ^ 52 ≤ 2 * N * 2 ^ fuel := by
        have he : N * 2 ^ (fuel + 1) = 2 * N * 2 ^ fuel := by ring
        omega
      have hlt' : 2 * N < D * 2 ^ 53 := by
        have he : D * 2 ^ 53 = 2 * (D * 2 ^ 52) := by ring
        omega
      obtain ⟨a, ha, h1, h2⟩ := ih (2 * N) hstart' hlt'
      refine ⟨a + 1, ?_, ?_, ?_⟩
      · unfold Config.shiftUp
        rw [if_pos hc, ha]
        have he : 2 * N * 2 ^ a = N * 2 ^ (a + 1) := by ring
        rw [he]
      · have he : N * 2 ^ (a + 1) = 2 * N * 2 ^ a := by ring
        omega
      · have he : N * 2 ^ (a + 1) = 2 * N * 2 ^ a := by ring
        omega
    · refine ⟨0, ?_, by simpa using not_lt.mp hc, by simpa using hlt⟩
      unfold Config.shiftUp
      rw [if_neg hc]
      simp

lemma roundQuot_bounds (N D : ℕ) (hD : 1 ≤ D) :
    2 * (Config.roundQuot N D * D) ≤ 2 * N + D ∧
      2 * N ≤ 2 * (Config.roundQuot N D * D) + D := by
  have h := Nat.div_add_mod N D
  have hr : N % D < D := Nat.mod_lt _ (by omega)
  have hc : N / D * D = D * (N / D) := Nat.mul_comm _ _
  have hs : (N / D + 1) * D = N / D * D + D := by ring
  unfold Config.roundQuot
  dsimp only
  split_ifs with h1 h2 h3 <;> constructor <;> omega

lemma pyIntDiv_eq_floor (m p : ℕ) (hp : 1 ≤ p) (hm : m < 2 ^ 53) :
    Config.pyIntDiv m p = some (m / p) := by
  unfold Config.pyIntDiv
  rw [if_neg (by omega : ¬p = 0)]
  by_cases hm0 : m = 0
  · rw [if_pos hm0, hm0, Nat.zero_div]
  rw [if_neg hm0]
  by_cases hsmall : 2 * m < p
  · rw [if_pos hsmall, Nat.div_eq_of_lt (by omega)]
  rw [if_neg hsmall]
  have hple : p ≤ 2 * m := by omega
  have hnotbig : ¬(p * 2 ^ 1024 ≤ m) := by
    intro hcon
    have h1 : (2 : ℕ) ^ 53 ≤ 2 ^ 1024 := Nat.pow_le_pow_right (by omega) (by omega)
    have h2 : (2 : ℕ) ^ 1024 ≤ p * 2 ^ 1024 := Nat.le_mul_of_pos_left _ (by omega)
    omega
  rw [if_neg hnotbig]
  have hstart : p * 2 ^ 52 ≤ m * 2 ^ 54 := by
    have h1 : p * 2 ^ 52 ≤ 2 * m * 2 ^ 52 := Nat.mul_le_mul_right _ hple
    have h2 : 2 * m * 2 ^ 52 = m * 2 ^ 53 := by ring
    have h3 : m * 2 ^ 53 ≤ m * 2 ^ 54 :=
      Nat.mul_le_mul_left m (Nat.pow_le_pow_right (by omega) (by omega))
    omega
  have hltm : m < p * 2 ^ 53 := by
    have h1 : (2 : ℕ) ^ 53 ≤ p * 2 ^ 53 := Nat.le_mul_of_pos_left _ (by omega)
    omega
  obtain ⟨a, hup, hlo, hhi⟩ := shiftUp_spec 54 m p hp hstart hltm
  rw [hup]
  dsimp only
  rw [shiftDown_eq_of_lt 1100 (m * 2 ^ a) p hhi]
  dsimp only
  simp only [pow_zero, Nat.mul_one]
  obtain ⟨hb1, hb2⟩ := roundQuot_bounds (m * 2 ^ a) p hp
  set n := Config.roundQuot (m * 2 ^ a) p with hn
  have hple2 : p * (2 * n) < p * (2 * 2 ^ 53 + 1) := by
    have e1 : p * (2 * n) = 2 * (n * p) := by ring
    have e2 : p * (2 * 2 ^ 53 + 1) = 2 * (p * 2 ^ 53) + p := by ring
    omega
  have hnle : n ≤ 2 ^ 53 := by
    have h1 : 2 * n < 2 * 2 ^ 53 + 1 := Nat.lt_of_mul_lt_mul_left hple2
    omega
  have hov : ¬((2 : ℕ) ^ 1024 ≤ n) := by
    have h1 : (2 : ℕ) ^ 53 < 2 ^ 1024 := by norm_num
    omega
  rw [if_neg hov]
  congr 1
  set f := m / p with hf
  have hfp : p * f + m % p = m := Nat.div_add_mod m p
  have hmod : m % p < p := Nat.mod_lt _ (by omega)
  have hf1 : f * p ≤ m := by
    have e : f * p = p * f := Nat.mul_comm _ _
    omega
  have hf2 : m + 1 ≤ (f + 1) * p := by
    have e : (f + 1) * p = p * f + p := by ring
    omega
  have hpa : p < 2 * 2 ^ a := by
    have h2 : m * 2 ^ a < 2 ^ 53 * 2 ^ a :=
      mul_lt_mul_of_pos_right hm (by positivity)
    have h3 : p * 2 ^ 52 < 2 ^ 53 * 2 ^ a := lt_of_le_of_lt hlo h2
    have h4 : (2 : ℕ) ^ 53 * 2 ^ a = 2 * 2 ^ a * 2 ^ 52 := by ring
    rw [h4] at h3
    exact Nat.lt_of_mul_lt_mul_right h3
  have hA : f * 2 ^ a ≤ n := by
    have h1 : f * p * 2 ^ a ≤ m * 2 ^ a := Nat.mul_le_mul_right _ hf1
    have h3 : p * (2 * (f * 2 ^ a)) ≤ p * (2 * n + 1) := by
      have e1 : p * (2 * (f * 2 ^ a)) = 2 * (f * p * 2 ^ a) := by ring
      have e2 : p * (2 * n + 1) = 2 * (n * p) + p := by ring
      omega
    have h4 : 2 * (f * 2 ^ a) ≤ 2 * n + 1 := Nat.le_of_mul_le_mul_left h3 (by omega)
    omega
  have hB : n < (f + 1) * 2 ^ a := by
    have h2 : (m + 1) * 2 ^ a ≤ (f + 1) * p * 2 ^ a := Nat.mul_le_mul_right _ hf2
    have h3 : p * (2 * n) < p * (2 * ((f + 1) * 2 ^ a)) := by
      have e1 : p * (2 * n) = 2 * (n * p) := by ring
      have e2 : 2 * (m * 2 ^ a) + 2 * 2 ^ a = 2 * ((m + 1) * 2 ^ a) := by ring
      have e3 : p * (2 * ((f + 1) * 2 ^ a)) = 2 * ((f + 1) * p * 2 ^ a) := by ring
      omega
    have h4 := Nat.lt_of_mul_lt_mul_left h3
    omega
  exact Nat.div_eq_of_lt_le hA hB

set_option maxRecDepth 40000 in
/-- C8 (counterexample): at `pool_size = 10^9` and
`total_mem_bytes = 10^17 - 1` — inside the claim's stated domain — Python's
float true division rounds the quotient up to `10^8`, so
`PROCESS_POOL_SIZE * PROCESS_MEMORY_LIMIT = 10^17` exceeds
`TILER_MEMORY_LIMIT = 10^17 - 1`, falsifying the claimed budget
inequality. -/
theorem C8_counterexample :
    1 ≤ 1000000000 ∧ 1 ≤ 99999999999999999 ∧
    ∃ cfg, Config.refresh 1000000000 99999999999999999 = some cfg ∧
      cfg.processMemoryLimit = 100000000 ∧
      ¬(cfg.processPoolSize * cfg.processMemoryLimit ≤ cfg.tilerMemoryLimit) :=
  ⟨by decide, by decide,
    ⟨{ gdalThreads := 4
       processPoolSize := 1000000000
       tilerMemoryLimit := 99999999999999999
       processMemoryLimit := 100000000
       gdalMemoryLimit := 25000000 },
      by decide, by decide, by decide⟩⟩

/-- C8 (amended): for `pool_size ≥ 1` and `1 ≤ total_mem_bytes < 2^53`,
Python's float true division `int(a/b)` agrees with floor division, so
`config.refresh` succeeds and the limits satisfy
`GDAL_THREADS = min(pool_size, 4)`,
`PROCESS_MEMORY_LIMIT = TILER_MEMORY_LIMIT // pool_size`,
`GDAL_MEMORY_LIMIT = PROCESS_MEMORY_LIMIT // GDAL_THREADS`, and
`PROCESS_POOL_SIZE * PROCESS_MEMORY_LIMIT ≤ TILER_MEMORY_LIMIT` and
`GDAL_THREADS * GDAL_MEMORY_LIMIT ≤ PROCESS_MEMORY_LIMIT`; above `2^53` the
float quotient can round up and the first inequality fails. -/
theorem C8_refresh_limits (p m : ℕ) (hp : 1 ≤ p) (hm1 : 1 ≤ m)
    (hm : m < 2 ^ 53) :
    ∃ cfg, Config.refresh p m = some cfg ∧
      cfg.gdalThreads = min p 4 ∧
      cfg.processMemoryLimit = m / p ∧
      cfg.gdalMemoryLimit = cfg.processMemoryLimit / cfg.gdalThreads ∧
      cfg.processPoolSize * cfg.processMemoryLimit ≤ cfg.tilerMemoryLimit ∧
      cfg.gdalThreads * cfg.gdalMemoryLimit ≤ cfg.processMemoryLimit := by
  have h1 := pyIntDiv_eq_floor m p hp hm
  have hmp : m / p < 2 ^ 53 := lt_of_le_of_lt (Nat.div_le_self m p) hm
  have hmin : 1 ≤ min p 4 := by omega
  have h2 := pyIntDiv_eq_floor (m / p) (min p 4) hmin hmp
  refine ⟨{ gdalThreads := min p 4
            processPoolSize := p
            tilerMemoryLimit := m
            processMemoryLimit := m / p
            gdalMemoryLimit := m / p / min p 4 }, ?_, rfl, rfl, rfl, ?_, ?_⟩
  · unfold Config.refresh
    rw [h1]
    show (Config.pyIntDiv (m / p) (min p 4)).bind _ = _
    rw [h2]
    rfl
  · show p * (m / p) ≤ m
    rw [Nat.mul_comm]
    exact Nat.div_mul_le_self m p
  · show min p 4 * (m / p / min p 4) ≤ m / p
    rw [Nat.mul_comm]
    exact Nat.div_mul_le_self (m / p) (min p 4)

/-- C8 witness for a pool of 3 workers over 1000 bytes. -/
theorem C8_witness :
    1 ≤ 3 ∧ 1 ≤ 1000 ∧ 1000 < 2 ^ 53 ∧
      (∃ cfg, Config.refresh 3 1000 = some cfg ∧
        cfg.gdalThreads = min 3 4 ∧
        cfg.processMemoryLimit = 1000 / 3 ∧
        cfg.gdalMemoryLimit = cfg.processMemoryLimit / cfg.gdalThreads ∧
        cfg.processPoolSize * cfg.processMemoryLimit ≤ cfg.tilerMemoryLimit ∧
        cfg.gdalThreads * cfg.gdalMemoryLimit ≤ cfg.processMemoryLimit) :=
  ⟨by decide, by decide, by decide,
    C8_refresh_limits 3 1000 (by decide) (by decide) (by decide)⟩

lemma foldl_writeChunk_not_contains (fn : ℕ → ℕ → ℤ) (rects : List (ℕ × ℕ × ℕ × ℕ))
    (g : Grid) (x y : ℕ) (hnc : ∀ r ∈ rects, ¬(rectContains r x y = true)) :
    (rects.foldl (writeChunk fn) g) x y = g x y := by
  induction rects generalizing g with
  | nil => rfl
  | cons r t ih =>
    rw [List.foldl_cons]
    rw [ih _ (fun r' hr' => hnc r' (List.mem_cons_of_mem r hr'))]
    have hr := hnc r (List.mem_cons_self r t)
    simp [writeChunk, hr]

lemma foldl_writeChunk_contains (fn : ℕ → ℕ → ℤ) (rects : List (ℕ × ℕ × ℕ × ℕ))
    (g : Grid) (x y : ℕ) (hc : ∃ r ∈ rects, rectContains r x y = true) :
    (rects.foldl (writeChunk fn) g) x y = fn x y := by
  induction rects generalizing g with
  | nil => simp at hc
  | cons r t ih =>
    rw [List.foldl_cons]
    by_cases hin : ∃ r' ∈ t, rectContains r' x y = true
    · exact ih _ hin
    · have hr : rectContains r x y = true := by
        obtain ⟨r', hr', hcr⟩ := hc
        rcases List.mem_cons.mp hr' with h | hmem
        · rw [← h]; exact hcr
        · exact absurd ⟨r', hmem, hcr⟩ hin
      have hnc : ∀ r' ∈ t, ¬(rectContains r' x y = true) := by
        intro r' hr' hcr'
        exact hin ⟨r', hr', hcr'⟩
      rw [foldl_writeChunk_not_contains fn t _ x y hnc]
      simp [writeChunk, hr]

lemma exists_chunk_contains (w h cs x y : ℕ) (hcs : 1 ≤ cs) (hx : x < w) (hy : y < h) :
    ∃ r ∈ chunk w h cs, rectContains r x y = true := by
  have hw : 1 ≤ w := by omega
  have hh : 1 ≤ h := by omega
  rw [chunk_eq w h cs hcs hw hh]
  have hxn : x / cs < numChunks w cs := by
    rw [Nat.div_lt_iff_lt_mul (by omega : 0 < cs)]
    exact lt_of_lt_of_le hx (le_numChunks_mul w cs hcs)
  have hyn : y / cs < numChunks h cs := by
    rw [Nat.div_lt_iff_lt_mul (by omega : 0 < cs)]
    exact lt_of_lt_of_le hy (le_numChunks_mul h cs hcs)
  refine ⟨rectOf w h cs (x / cs) (y / cs), ?_, ?_⟩
  · simp only [List.mem_flatMap, List.mem_map, List.mem_range]
    exact ⟨y / cs, hyn, x / cs, hxn, rfl⟩
  · unfold rectContains rectOf
    simp only [decide_eq_true_eq]
    have d1 := Nat.div_add_mod x cs
    have d2 := Nat.div_add_mod y cs
    have m1 : x % cs < cs := Nat.mod_lt _ (by omega)
    have m2 : y % cs < cs := Nat.mod_lt _ (by omega)
    have e1 : (x / cs + 1) * cs = cs * (x / cs) + cs := by ring
    have e2 : (y / cs + 1) * cs = cs * (y / cs) + cs := by ring
    have s1 : x / cs * cs = cs * (x / cs) := by ring
    have s2 : y / cs * cs = cs * (y / cs) := by ring
    omega

lemma calcGrid_covered (w h cs : ℕ) (nodata : ℤ) (fn : ℕ → ℕ → ℤ) (x y : ℕ)
    (hcs : 1 ≤ cs) (hx : x < w) (hy : y < h) :
    calcGrid w h cs nodata fn x y = fn x y := by
  unfold calcGrid
  exact foldl_writeChunk_contains fn _ _ x y (exists_chunk_contains w h cs x y hcs hx hy)

/-- C7: within the raster, `clip_raster` yields the target layer's value
wherever the bounding-box pixel differs from the bounding-box nodata value,
the target layer's nodata value wherever it equals it, and no other value
anywhere. -/
theorem C7_clip_raster (w h cs : ℕ) (target bbox : Grid) (tnd bnd : ℤ)
    (hcs : 1 ≤ cs) (x y : ℕ) (hx : x < w) (hy : y < h) :
    (bbox x y ≠ bnd → clip_raster w h cs target bbox tnd bnd x y = target x y) ∧
    (bbox x y = bnd → clip_raster w h cs target bbox tnd bnd x y = tnd) ∧
    (clip_raster w h cs target bbox tnd bnd x y = target x y ∨
      clip_raster w h cs target bbox tnd bnd x y = tnd) := by
  unfold clip_raster
  rw [calcGrid_covered w h cs tnd _ x y hcs hx hy]
  by_cases hb : bbox x y = bnd
  · simp [hb]
  · simp [hb]

/-- C7 witness on a concrete 2×2 raster. -/
theorem C7_witness :
    1 ≤ 1 ∧ 0 < 2 ∧ 1 < 2 ∧
      (((fun _ _ => (9 : ℤ)) : Grid) 0 1 ≠ 9 →
          clip_raster 2 2 1 (fun _ _ => 7) (fun _ _ => 9) (-1) 9 0 1 = 7) ∧
      (((fun _ _ => (9 : ℤ)) : Grid) 0 1 = 9 →
          clip_raster 2 2 1 (fun _ _ => 7) (fun _ _ => 9) (-1) 9 0 1 = -1) ∧
      (clip_raster 2 2 1 (fun _ _ => 7) (fun _ _ => 9) (-1) 9 0 1 = 7 ∨
        clip_raster 2 2 1 (fun _ _ => 7) (fun _ _ => 9) (-1) 9 0 1 = -1) :=
  ⟨by decide, by decide, by decide,
    C7_clip_raster 2 2 1 (fun _ _ => 7) (fun _ _ => 9) (-1) 9 (by decide) 0 1
      (by decide) (by decide)⟩

/-- C10: the calculation `np.where(d != nodata, d, nodata)` used by
`DisturbanceLayer._flatten` is the identity, so the produced raster equals its
input at every pixel, while the returned `RasterLayer`'s stored attribute
table is `{1: [1]}`. -/
theorem C10_flatten_identity (w h cs : ℕ) (nodata : ℤ) (g : Grid) (hcs : 1 ≤ cs) :
    (∀ nd v : ℤ, (if v ≠ nd then v else nd) = v) ∧
    (∀ x, x < w → ∀ y, y < h → flatten_calc w h cs nodata g x y = g x y) ∧
    flatten_result_attribute_table = [(1, PyVal.vInt 1 :: [])] := by
  refine ⟨?_, ?_, ?_⟩
  · intro nd v
    by_cases hv : v = nd
    · simp [hv]
    · simp [hv]
  · intro x hx y hy
    unfold flatten_calc
    rw [calcGrid_covered w h cs nodata _ x y hcs hx hy]
    by_cases hv : g x y = nodata <;> simp [hv]
  · rfl

/-- C10 witness on a concrete 2×2 grid. -/
theorem C10_witness :
    1 ≤ 1 ∧ 0 < 2 ∧ 1 < 2 ∧
      flatten_calc 2 2 1 5 (fun x y => (x : ℤ) + y) 0 1 = ((fun x y => (x : ℤ) + y) : Grid) 0 1 ∧
      flatten_result_attribute_table = [(1, PyVal.vInt 1 :: [])] :=
  ⟨by decide, by decide, by decide,
    (C10_flatten_identity 2 2 1 5 (fun x y => (x : ℤ) + y) (by decide)).2.1 0 (by decide) 1
      (by decide),
    (C10_flatten_identity 2 2 1 5 (fun x y => (x : ℤ) + y) (by decide)).2.2⟩

/-- C1: with a source nodata value, `RasterLayer._rasterize` flattens every
non-nodata pixel to 1 and nodata to 0, mode-resamples that mask with nodata
included (`srcNodata="None"`), mode-resamples the original layer with nodata
excluded, and the final masked raster holds the original nodata value exactly
where the mask is 0 and the resampled value where the mask is nonzero. -/
theorem C1_nodata_resample (mode : List ℤ → ℤ) (contrib : ℕ → ℕ → List (ℕ × ℕ))
    (nodata : ℤ) (g : Grid) (w h w2 h2 cs : ℕ) (hcs : 1 ≤ cs) :
    (∀ x, x < w → ∀ y, y < h →
        flattened_mask w h cs nodata g x y = if g x y = nodata then 0 else 1) ∧
    (∀ x y, modeResample mode contrib none (flattened_mask w h cs nodata g) x y =
        mode ((contrib x y).map fun p => flattened_mask w h cs nodata g p.1 p.2)) ∧
    (∀ x y, modeResample mode contrib (some nodata) g x y =
        mode (((contrib x y).map fun p => g p.1 p.2).filter fun v => decide (v ≠ nodata))) ∧
    (∀ x, x < w2 → ∀ y, y < h2 →
        rasterize_masked mode contrib nodata g w h w2 h2 cs x y =
          if modeResample mode contrib none (flattened_mask w h cs nodata g) x y = 0
          then nodata
          else modeResample mode contrib (some nodata) g x y) := by
  refine ⟨?_, ?_, ?_, ?_⟩
  · intro x hx y hy
    unfold flattened_mask
    rw [calcGrid_covered w h cs 0 _ x y hcs hx hy]
    by_cases hv : g x y = nodata <;> simp [hv]
  · intro x y
    unfold modeResample
    rw [List.filter_true]
  · intro x y
    rfl
  · intro x hx y hy
    unfold rasterize_masked
    rw [calcGrid_covered w2 h2 cs nodata _ x y hcs hx hy]

/-- C1 witness with a single-pixel contribution map on a 2×2 grid. -/
theorem C1_witness :
    1 ≤ 1 ∧ 0 < 2 ∧ 1 < 2 ∧
      rasterize_masked (fun l => l.headD 0) (fun x y => [(x, y)]) 5
          (fun x y => (x : ℤ) * y) 2 2 2 2 1 0 1 =
        (if modeResample (fun l => l.headD 0) (fun x y => [(x, y)]) none
            (flattened_mask 2 2 1 5 (fun x y => (x : ℤ) * y)) 0 1 = 0
          then 5
          else modeResample (fun l => l.headD 0) (fun x y => [(x, y)]) (some 5)
            (fun x y => (x : ℤ) * y) 0 1) :=
  ⟨by decide, by decide, by decide,
    (C1_nodata_resample (fun l => l.headD 0) (fun x y => [(x, y)]) 5
      (fun x y => (x : ℤ) * y) 2 2 2 2 1 (by decide)).2.2.2 0 (by decide) 1 (by decide)⟩

lemma removeDuplicatesAux_sublist {M : Type} (layers : List (LayerModel M))
    (names : List String) :
    (removeDuplicatesAux layers names).Sublist layers := by
  induction layers generalizing names with
  | nil => simp [removeDuplicatesAux]
  | cons a t ih =>
    unfold removeDuplicatesAux
    by_cases hmem : a.name ∈ names
    · rw [if_pos hmem]
      exact (ih names).cons a
    · rw [if_neg hmem]
      exact (ih (names ++ [a.name])).cons₂ a

lemma mem_removeDuplicatesAux {M : Type} (layers : List (LayerModel M))
    (names : List String) (l : LayerModel M) :
    l ∈ removeDuplicatesAux layers names ↔
      ∃ pre post, layers = pre ++ l :: post ∧ l.name ∉ names ∧
        l.name ∉ pre.map LayerModel.name := by
  induction layers generalizing names with
  | nil =>
    simp only [removeDuplicatesAux, List.not_mem_nil, false_iff, not_exists]
    rintro pre post ⟨habs, -⟩
    exact List.not_mem_nil l (habs ▸ List.mem_append_right pre (List.mem_cons_self l post))
  | cons a t ih =>
    unfold removeDuplicatesAux
    by_cases hmem : a.name ∈ names
    · rw [if_pos hmem, ih]
      constructor
      · rintro ⟨pre, post, rfl, hn, hp⟩
        refine ⟨a :: pre, post, rfl, hn, ?_⟩
        simp only [List.map_cons, List.mem_cons, not_or]
        exact ⟨fun he => hn (he ▸ hmem), hp⟩
      · rintro ⟨pre, post, heq, hn, hp⟩
        cases pre with
        | nil =>
          simp only [List.nil_append, List.cons.injEq] at heq
          obtain ⟨rfl, rfl⟩ := heq
          exact absurd hmem hn
        | cons b pre' =>
          simp only [List.cons_append, List.cons.injEq] at heq
          obtain ⟨rfl, rfl⟩ := heq
          simp only [List.map_cons, List.mem_cons, not_or] at hp
          exact ⟨pre', post, rfl, hn, hp.2⟩
    · rw [if_neg hmem, List.mem_cons, ih]
      constructor
      · rintro (rfl | ⟨pre, post, rfl, hn, hp⟩)
        · exact ⟨[], t, rfl, hmem, by simp⟩
        · refine ⟨a :: pre, post, rfl, ?_, ?_⟩
          · exact fun hcon => hn (List.mem_append_left _ hcon)
          · simp only [List.map_cons, List.mem_cons, not_or]
            refine ⟨?_, hp⟩
            intro he
            exact hn (he ▸ List.mem_append_right _ (List.mem_singleton_self _))
      · rintro ⟨pre, post, heq, hn, hp⟩
        cases pre with
        | nil =>
          simp only [List.nil_append, List.cons.injEq] at heq
          obtain ⟨rfl, rfl⟩ := heq
          exact Or.inl rfl
        | cons b pre' =>
          simp only [List.cons_append, List.cons.injEq] at heq
          obtain ⟨rfl, rfl⟩ := heq
          simp only [List.map_cons, List.mem_cons, not_or] at hp
          refine Or.inr ⟨pre', post, rfl, ?_, hp.2⟩
          intro hcon
          rcases List.mem_append.mp hcon with h | h
          · exact hn h
          · exact hp.1 (by simpa using h)

lemma removeDuplicatesAux_names {M : Type} (layers : List (LayerModel M))
    (names : List String) :
    ((removeDuplicatesAux layers names).map LayerModel.name).Nodup ∧
      ∀ l ∈ removeDuplicatesAux layers names, l.name ∉ names := by
  induction layers generalizing names with
  | nil => refine ⟨by simp [removeDuplicatesAux], by simp [removeDuplicatesAux]⟩
  | cons a t ih =>
    unfold removeDuplicatesAux
    by_cases hmem : a.name ∈ names
    · rw [if_pos hmem]
      exact ih names
    · rw [if_neg hmem]
      obtain ⟨ih1, ih2⟩ := ih (names ++ [a.name])
      refine ⟨?_, ?_⟩
      · rw [List.map_cons, List.nodup_cons]
        refine ⟨?_, ih1⟩
        intro hcon
        rw [List.mem_map] at hcon
        obtain ⟨l', hl', hname⟩ := hcon
        exact (ih2 l' hl')
          (hname ▸ List.mem_append_right _ (List.mem_singleton_self _))
      · intro l hl
        rcases List.mem_cons.mp hl with rfl | hl'
        · exact hmem
        · exact fun hcon => (ih2 l hl') (List.mem_append_left _ hcon)

lemma mem_skippedLayers_iff {M : Type} (layers : List (LayerModel M))
    (l : LayerModel M) (hl : l ∈ removeDuplicates layers) :
    l.name ∈ skippedLayers layers ↔ tileLayerSuccess l = false := by
  unfold skippedLayers
  constructor
  · intro hmem
    rw [List.mem_map] at hmem
    obtain ⟨l', hl', hname⟩ := hmem
    rw [List.mem_filter] at hl'
    obtain ⟨hl'mem, hfail⟩ := hl'
    have hinj := List.inj_on_of_nodup_map (removeDuplicatesAux_names layers []).1
    have heq : l' = l := hinj hl'mem hl hname
    subst heq
    simpa using hfail
  · intro hfail
    rw [List.mem_map]
    exact ⟨l, List.mem_filter.mpr ⟨hl, by simp [hfail]⟩, rfl⟩

lemma skippedSpec_eq {M : Type} (l : LayerModel M) :
    skippedSpec l = !tileLayerSuccess l := by
  unfold skippedSpec tileLayerSuccess
  rcases hn : l.normalized with _ | e <;>
    cases hr : l.raises <;>
    cases he : l.isEmpty <;>
    simp [hn, hr, he]

/-- C4: the `"layers"` entry written by `GdalTiler2D.tile` is, in input order,
the metadata of exactly those input layers that survive deduplication by name
(first occurrence kept) and are not skipped, where a layer is skipped iff it
is empty, normalizes to nothing or to an empty layer, or raises an exception
during processing. -/
theorem C4_tile_manifest {M : Type} (layers : List (LayerModel M)) :
    tileManifest layers =
      ((removeDuplicates layers).filter fun l => !skippedSpec l).map
        LayerModel.metadata ∧
    (∀ l : LayerModel M, skippedSpec l = !tileLayerSuccess l) ∧
    (removeDuplicates layers).Sublist layers ∧
    (∀ l : LayerModel M,
        l ∈ removeDuplicates layers ↔
          ∃ pre post, layers = pre ++ l :: post ∧
            l.name ∉ pre.map LayerModel.name) := by
  refine ⟨?_, fun l => skippedSpec_eq l, removeDuplicatesAux_sublist layers [], ?_⟩
  · unfold tileManifest
    congr 1
    apply List.filter_congr
    intro l hl
    rw [skippedSpec_eq]
    have hiff := mem_skippedLayers_iff layers l hl
    by_cases hs : tileLayerSuccess l
    · have hnmem : l.name ∉ skippedLayers layers := by
        intro hmem
        rw [hiff.mp hmem] at hs
        exact absurd hs (by simp)
      simp [hnmem, hs]
    · have hs' : tileLayerSuccess l = false := by simpa using hs
      have hmem : l.name ∈ skippedLayers layers := hiff.mpr hs'
      simp [hmem, hs']
  · intro l
    unfold removeDuplicates
    rw [mem_removeDuplicatesAux layers [] l]
    simp

lemma foldl_max_le_init {V : Type} (l : List (ℕ × List V)) (init : ℕ) :
    init ≤ l.foldl (fun m r => max m r.1) init := by
  induction l generalizing init with
  | nil => exact le_refl init
  | cons a t ih => exact le_trans (le_max_left init a.1) (ih (max init a.1))

lemma mem_le_foldl_max {V : Type} (l : List (ℕ × List V)) (init : ℕ) :
    ∀ row ∈ l, row.1 ≤ l.foldl (fun m r => max m r.1) init := by
  induction l generalizing init with
  | nil => simp
  | cons a t ih =>
    intro row hrow
    rcases List.mem_cons.mp hrow with rfl | h
    · exact le_trans (le_max_right init row.1) (foldl_max_le_init t _)
    · exact ih _ row h

lemma foldl_set_length {V : Type} (toStr : V → String) (l : List (ℕ × List V))
    (init : List String) :
    (l.foldl (fun acc row => acc.set row.1 (renderNative toStr row.2)) init).length =
      init.length := by
  induction l generalizing init with
  | nil => rfl
  | cons a t ih => rw [List.foldl_cons, ih, List.length_set]

lemma foldl_set_getElem_not_mem {V : Type} (toStr : V → String)
    (l : List (ℕ × List V)) (init : List String) (i : ℕ)
    (hnot : i ∉ l.map Prod.fst) :
    (l.foldl (fun acc row => acc.set row.1 (renderNative toStr row.2)) init)[i]? =
      init[i]? := by
  induction l generalizing init with
  | nil => rfl
  | cons a t ih =>
    simp only [List.map_cons, List.mem_cons, not_or] at hnot
    rw [List.foldl_cons, ih _ hnot.2, List.getElem?_set_ne (fun he => hnot.1 he.symm)]

lemma foldl_set_getElem_mem {V : Type} (toStr : V → String)
    (l : List (ℕ × List V)) (init : List String)
    (hnd : (l.map Prod.fst).Nodup) (row : ℕ × List V) (hrow : row ∈ l)
    (hlen : row.1 < init.length) :
    (l.foldl (fun acc row => acc.set row.1 (renderNative toStr row.2)) init)[row.1]? =
      some (renderNative toStr row.2) := by
  induction l generalizing init with
  | nil => simp at hrow
  | cons a t ih =>
    simp only [List.map_cons, List.nodup_cons] at hnd
    rw [List.foldl_cons]
    rcases List.mem_cons.mp hrow with rfl | h
    · have hnot : row.1 ∉ t.map Prod.fst := hnd.1
      rw [foldl_set_getElem_not_mem toStr t _ _ hnot, List.getElem?_set_self hlen]
    · exact ih (init.set a.1 (renderNative toStr a.2)) hnd.2 h
        (by rw [List.length_set]; exact hlen)

/-- C5: for a layer with a nonempty attribute table (distinct pixel keys),
`_write_metadata` with `compact_attribute_table=False` writes an
`"attributes"` mapping sending a single-attribute pixel value to the bare
value and a multi-attribute one to an attribute-name-to-value dictionary,
plus a native category list of length `max pixel + 1` whose entry at each
pixel value is that value's rendered attributes and whose every other entry
is `"null"`; with `compact_attribute_table=True` it instead writes
`"attribute_names"` and the raw attribute table. -/
theorem C5_write_metadata {V : Type} (toStr : V → String) (attrNames : List String)
    (table : List (ℕ × List V)) (hne : table ≠ [])
    (hkeys : (table.map Prod.fst).Nodup) :
    writeMetadataAttributes toStr true attrNames table =
      AttributesOut.compact attrNames table ∧
    (∃ native,
      writeMetadataAttributes toStr false attrNames table =
        AttributesOut.full
          (table.map fun row =>
            match row.2 with
            | [v] => (row.1, MetaVal.bare v)
            | vs => (row.1, MetaVal.dict (attrNames.zip vs))) native ∧
      native.length = maxPixel table + 1 ∧
      (∀ row ∈ table, native[row.1]? = some (renderNative toStr row.2)) ∧
      (∀ i < native.length, i ∉ table.map Prod.fst → native[i]? = some "null")) := by
  have hemp : table.isEmpty = false := by
    rw [← Bool.not_eq_true, List.isEmpty_iff]
    exact hne
  constructor
  · unfold writeMetadataAttributes
    rw [hemp]
    simp
  · refine ⟨buildNativeAttributes toStr table, ?_, ?_, ?_, ?_⟩
    · unfold writeMetadataAttributes
      rw [hemp]
      simp [buildAttributesJson]
    · unfold buildNativeAttributes
      rw [foldl_set_length, List.length_replicate]
    · intro row hrow
      unfold buildNativeAttributes
      apply foldl_set_getElem_mem toStr table _ hkeys row hrow
      rw [List.length_replicate]
      exact Nat.lt_succ_of_le (mem_le_foldl_max table 0 row hrow)
    · intro i hi hnot
      unfold buildNativeAttributes
      rw [foldl_set_getElem_not_mem toStr table _ i hnot, List.getElem?_replicate,
        if_pos]
      unfold buildNativeAttributes at hi
      rw [foldl_set_length, List.length_replicate] at hi
      exact hi

lemma buildAttrTableAux_empty {V C : Type} (cfg : DistCfg V C) (names : List String)
    (table : List (ℕ × List V))
    (hex : ∃ row ∈ table, requiredMissing cfg (names.zip row.2) = true)
    (hclean : ∀ row ∈ table, requiredMissing cfg (names.zip row.2) = false →
        (buildRowValues cfg (names.zip row.2)).isSome) :
    buildAttrTableAux cfg names table = .emptyReturn := by
  induction table with
  | nil =>
    obtain ⟨r, hr, -⟩ := hex
    exact absurd hr (List.not_mem_nil r)
  | cons a t ih =>
    obtain ⟨px, row⟩ := a
    unfold buildAttrTableAux
    by_cases hmiss : requiredMissing cfg (names.zip row) = true
    · rw [if_pos hmiss]
    · have hfalse : requiredMissing cfg (names.zip row) = false := by
        simpa using hmiss
      rw [if_neg hmiss]
      have hsome := hclean (px, row) (List.mem_cons_self _ _) hfalse
      obtain ⟨vals, hvals⟩ := Option.isSome_iff_exists.mp hsome
      rw [hvals]
      have hex' : ∃ row' ∈ t, requiredMissing cfg (names.zip row'.2) = true := by
        obtain ⟨r, hr, hmr⟩ := hex
        rcases List.mem_cons.mp hr with rfl | hmem
        · rw [hfalse] at hmr
          exact absurd hmr (by simp)
        · exact ⟨r, hmem, hmr⟩
      rw [ih hex' (fun r hr h => hclean r (List.mem_cons_of_mem _ hr) h)]

lemma buildAttrTableAux_ok {V C : Type} (cfg : DistCfg V C) (names : List String)
    (table : List (ℕ × List V))
    (hall : ∀ row ∈ table, requiredMissing cfg (names.zip row.2) = false)
    (hclean : ∀ row ∈ table, (buildRowValues cfg (names.zip row.2)).isSome) :
    ∃ t, buildAttrTableAux cfg names table = .ok t ∧ t.length = table.length ∧
      ∀ e ∈ t, ∃ row ∈ table, e.1 = row.1 ∧
        buildRowValues cfg (names.zip row.2) = some e.2 := by
  induction table with
  | nil => exact ⟨[], rfl, rfl, by simp⟩
  | cons a t ih =>
    obtain ⟨px, row⟩ := a
    have hfalse := hall (px, row) (List.mem_cons_self _ _)
    have hsome := hclean (px, row) (List.mem_cons_self _ _)
    obtain ⟨vals, hvals⟩ := Option.isSome_iff_exists.mp hsome
    obtain ⟨t', ht', hlen, hshape⟩ :=
      ih (fun r hr => hall r (List.mem_cons_of_mem _ hr))
        (fun r hr => hclean r (List.mem_cons_of_mem _ hr))
    refine ⟨(px, vals) :: t', ?_, by simp [hlen], ?_⟩
    · unfold buildAttrTableAux
      rw [if_neg (by simp [hfalse]), hvals, ht']
    · intro e he
      rcases List.mem_cons.mp he with rfl | hmem
      · exact ⟨(px, row), List.mem_cons_self _ _, rfl, hvals⟩
      · obtain ⟨r, hr, he1, he2⟩ := hshape e hmem
        exact ⟨r, List.mem_cons_of_mem _ hr, he1, he2⟩

lemma buildRowValues_shape {V C : Type} (cfg : DistCfg V C)
    (avs : List (String × V)) (vals : List (DistVal V C))
    (h : buildRowValues cfg avs = some vals) :
    ∃ y d ps, yearOf cfg avs = some y ∧ distTypeOf cfg avs = some d ∧
      propPart cfg avs = some ps ∧
      vals = .intVal y :: .rawVal d ::
        (ps ++ transPart cfg avs ++ condPart cfg ++ metaPart cfg avs) := by
  unfold buildRowValues at h
  cases hy : yearOf cfg avs with
  | none => rw [hy] at h; simp at h
  | some y =>
    rw [hy] at h
    cases hd : distTypeOf cfg avs with
    | none => rw [hd] at h; simp at h
    | some d =>
      rw [hd] at h
      cases hp : propPart cfg avs with
      | none => rw [hp] at h; simp at h
      | some ps =>
        rw [hp] at h
        exact ⟨y, d, ps, rfl, rfl, rfl, (Option.some.inj h).symm⟩

/-- C6 (counterexample): with year given as Attribute `"y"` and a proportion
Attribute `"p"`, the table `{1: ["2000"], 2: []}` has the year attribute
missing from its second entry, yet `_build_attribute_table` does not return
an empty table and `_rasterize` does not return None — the first entry's
missing proportion attribute makes `float(None)` raise before the
required-attribute check of the second entry is ever reached. -/
theorem C6_counterexample :
    (2, ([] : List String)) ∈ cexTable ∧
    requiredMissing cexCfg (cexNames.zip ([] : List String)) = true ∧
    buildAttrTable cexCfg cexNames cexTable ≠ some [] ∧
    rasterizeInterpreted cexCfg cexNames cexTable (some ()) ≠ some none := by
  refine ⟨by simp [cexTable], rfl, ?_, ?_⟩
  · have h : buildAttrTable cexCfg cexNames cexTable = none := rfl
    rw [h]
    simp
  · have h : rasterizeInterpreted cexCfg cexNames cexTable (some ()) = none := rfl
    rw [h]
    simp

/-- C6 (amended): provided no entry that passes the required-attribute check
raises while its values are computed (e.g. a configured proportion Attribute
missing from an earlier entry), `_build_attribute_table` returns an empty
table — and `_rasterize` consequently returns None — whenever year or
disturbance_type is an Attribute whose db_name is missing from some entry;
otherwise every entry of the resulting table begins with the disturbance year
coerced to an integer followed by the disturbance type, with proportion,
transition rule id(s), conditions and extra metadata attributes appended, and
each of those parts is present only when configured. -/
theorem C6_build_attribute_table {V C : Type} (cfg : DistCfg V C)
    (names : List String) (table : List (ℕ × List V))
    (hclean : ∀ row ∈ table, requiredMissing cfg (names.zip row.2) = false →
        (buildRowValues cfg (names.zip row.2)).isSome) :
    ((∃ row ∈ table, requiredMissing cfg (names.zip row.2) = true) →
        buildAttrTable cfg names table = some [] ∧
        rasterizeInterpreted cfg names table (some ()) = some none) ∧
    ((∀ row ∈ table, requiredMissing cfg (names.zip row.2) = false) →
        ∃ t, buildAttrTable cfg names table = some t ∧
          t.length = table.length ∧
          ∀ e ∈ t, ∃ row ∈ table, e.1 = row.1 ∧
            ∃ y d ps,
              yearOf cfg (names.zip row.2) = some y ∧
              distTypeOf cfg (names.zip row.2) = some d ∧
              propPart cfg (names.zip row.2) = some ps ∧
              e.2 = .intVal y :: .rawVal d ::
                (ps ++ transPart cfg (names.zip row.2) ++ condPart cfg ++
                  metaPart cfg (names.zip row.2))) ∧
    (cfg.proportion = none → ∀ avs, propPart cfg avs = some []) ∧
    (cfg.transition = none → cfg.survivor_transition = none →
        ∀ avs, transPart cfg avs = []) ∧
    (cfg.conditions = none → condPart cfg = ([] : List (DistVal V C))) ∧
    (cfg.metadata_attributes = [] → ∀ avs, metaPart cfg avs = []) := by
  refine ⟨?_, ?_, ?_, ?_, ?_, ?_⟩
  · intro hex
    have haux := buildAttrTableAux_empty cfg names table hex hclean
    constructor
    · unfold buildAttrTable
      rw [haux]
    · unfold rasterizeInterpreted buildAttrTable
      rw [haux]
      rfl
  · intro hall
    obtain ⟨t, haux, hlen, hshape⟩ :=
      buildAttrTableAux_ok cfg names table hall
        (fun r hr => hclean r hr (hall r hr))
    refine ⟨t, ?_, hlen, ?_⟩
    · unfold buildAttrTable
      rw [haux]
    · intro e he
      obtain ⟨row, hr, he1, he2⟩ := hshape e he
      obtain ⟨y, d, ps, hy, hd, hp, hv⟩ := buildRowValues_shape cfg _ _ he2
      exact ⟨row, hr, he1, y, d, ps, hy, hd, hp, hv⟩
  · intro h avs
    unfold propPart
    rw [h]
  · intro h1 h2 avs
    unfold transPart
    rw [h1, h2]
    rfl
  · intro h
    unfold condPart
    rw [h]
  · intro h avs
    unfold metaPart
    rw [h]
    rfl

/-- C6 witness: a table whose only entry is missing the required year
attribute yields `{}` from `_build_attribute_table` and None from
`_rasterize`. -/
theorem C6_witness :
    (∀ row ∈ cexTableMissingOnly,
        requiredMissing cexCfg (cexNames.zip row.2) = false →
          (buildRowValues cexCfg (cexNames.zip row.2)).isSome) ∧
    (∃ row ∈ cexTableMissingOnly,
        requiredMissing cexCfg (cexNames.zip row.2) = true) ∧
    (buildAttrTable cexCfg cexNames cexTableMissingOnly = some [] ∧
      rasterizeInterpreted cexCfg cexNames cexTableMissingOnly (some ()) = some none) :=
  ⟨by decide, by decide,
    (C6_build_attribute_table cexCfg cexNames cexTableMissingOnly (by decide)).1
      (by decide)⟩

/-- C5 witness on a concrete two-row attribute table. -/
theorem C5_witness :
    ([((1 : ℕ), ["x"]), (3, ["y", "z"])] : List (ℕ × List String)) ≠ [] ∧
      ([((1 : ℕ), ["x"]), (3, ["y", "z"])].map Prod.fst).Nodup ∧
      (writeMetadataAttributes id true ["a", "b"] [(1, ["x"]), (3, ["y", "z"])] =
        AttributesOut.compact ["a", "b"] [(1, ["x"]), (3, ["y", "z"])] ∧
      (∃ native,
        writeMetadataAttributes id false ["a", "b"] [(1, ["x"]), (3, ["y", "z"])] =
          AttributesOut.full
            ([(1, ["x"]), (3, ["y", "z"])].map fun row =>
              match row.2 with
              | [v] => (row.1, MetaVal.bare v)
              | vs => (row.1, MetaVal.dict (["a", "b"].zip vs))) native ∧
        native.length = maxPixel [(1, ["x"]), (3, ["y", "z"])] + 1 ∧
        (∀ row ∈ ([((1 : ℕ), ["x"]), (3, ["y", "z"])] : List (ℕ × List String)),
          native[row.1]? = some (renderNative id row.2)) ∧
        (∀ i < native.length,
          i ∉ ([((1 : ℕ), ["x"]), (3, ["y", "z"])] : List (ℕ × List String)).map Prod.fst →
            native[i]? = some "null"))) :=
  ⟨by decide, by decide,
    C5_write_metadata id ["a", "b"] [(1, ["x"]), (3, ["y", "z"])] (by decide) (by decide)⟩

end Mojadata
